import Mathlib

/-!
Verification of the incremental document indexing and reconciliation engine
of the brew-master-ai repository, against its natural-language specification.

The definitions below are a shallow embedding of the Python source under
`data-extraction/`, primarily `enhanced_processor.py` (TextChunker,
DataValidator) and `enhanced_processor_with_cleanup.py`
(EnhancedDataProcessorWithCleanup).  External collaborators (the Qdrant
vector store, the filesystem, the NLTK/spaCy tokenizers, the embedding
model) are modelled as explicit data: the store is a list of points, a
directory is a record carrying its `os.listdir` result, tokenization and
per-file chunk production are function parameters.  Machine integers in the
source are Python arbitrary-precision ints holding sizes and indices, so
they are modelled as `Nat` (with `Int` where the source can go negative).
-/

namespace BrewMaster

/-- Chunking parameters used by `TextChunker`
(`TextProcessingConfig` in `enhanced_processor.py`). -/
structure TextProcessingConfig where
  max_chunk_size : Nat
  min_chunk_size : Nat
  overlap_size : Nat
  max_sentences_per_chunk : Nat
deriving DecidableEq, Repr

/-- A chunk as produced by `TextChunker._create_chunk_metadata`: the joined
text plus the metadata fields the chunker itself stamps.  Fields of the
caller-supplied base metadata template are omitted: `_create_chunk_metadata`
copies the template and then overwrites `chunk_index`, `start_sentence`,
`end_sentence`, so the stamped values are independent of the template.
`start_sentence`/`end_sentence` are `Int` because the source computes them
by subtractions that can go negative. -/
structure Chunk where
  text : String
  chunk_index : Nat
  start_sentence : Int
  end_sentence : Int
deriving DecidableEq, Repr

/-- `' '.join(current_chunk)` -/
def joinSp (l : List String) : String := String.intercalate " " l

/-- Sum of the character lengths of a list of sentences
(`sum(len(s) for s in current_chunk)`). -/
def totalLen (l : List String) : Nat := (l.map String.length).sum

/-- Loop body of `TextChunker._get_overlap_sentences`
(`enhanced_processor.py` lines 370-382): iterate over the reversed sentence
list, prepending each sentence while the accumulated length stays within
`overlap_size`, stopping at the first sentence that does not fit. -/
def overlapLoop (overlap_size : Nat) : List String → Nat → List String → List String
  | [], _, acc => acc
  | s :: rest, cur, acc =>
      if cur + s.length ≤ overlap_size then
        overlapLoop overlap_size rest (cur + s.length) (s :: acc)
      else acc

/-- `TextChunker._get_overlap_sentences(sentences, overlap_size)`. -/
def get_overlap_sentences (sentences : List String) (overlap_size : Nat) : List String :=
  overlapLoop overlap_size sentences.reverse 0 []

/-- Mutable state of the loop in `TextChunker._chunk_by_sentences`
(`enhanced_processor.py` lines 287-342): emitted chunks, the sentence
buffer, and `current_length` (sum of buffered sentence lengths,
excluding the join spaces — exactly as the source tracks it). -/
structure SentState where
  chunks : List Chunk
  current_chunk : List String
  current_length : Nat
deriving DecidableEq, Repr

/-- Close the current buffer as a chunk: emit it with
`chunk_index = len(chunks)` and re-seed the buffer with the overlap tail
(or empty when `overlap_size = 0`), exactly as both emission sites of
`_chunk_by_sentences` do. -/
def emitChunk (cfg : TextProcessingConfig) (st : SentState) (s e : Int) : SentState :=
  let c : Chunk := ⟨joinSp st.current_chunk, st.chunks.length, s, e⟩
  let cur :=
    if 0 < cfg.overlap_size then get_overlap_sentences st.current_chunk cfg.overlap_size
    else []
  ⟨st.chunks ++ [c], cur, totalLen cur⟩

/-- `current_chunk.append(sentence); current_length += sentence_length`. -/
def appendSentence (s : String) (st : SentState) : SentState :=
  ⟨st.chunks, st.current_chunk ++ [s], st.current_length + s.length⟩

/-- The first emission site of `_chunk_by_sentences` (lines 303-316): close
the buffer if appending the incoming sentence would exceed
`max_chunk_size` and the buffer is nonempty. -/
def sizeClose (cfg : TextProcessingConfig) (i : Nat) (s : String) (st : SentState) :
    SentState :=
  if cfg.max_chunk_size < st.current_length + s.length ∧ st.current_chunk ≠ [] then
    emitChunk cfg st ((i : Int) - st.current_chunk.length) ((i : Int) - 1)
  else st

/-- The second emission site of `_chunk_by_sentences` (lines 321-334):
close the buffer once it has reached `max_sentences_per_chunk`
sentences. -/
def countClose (cfg : TextProcessingConfig) (i : Nat) (st : SentState) : SentState :=
  if cfg.max_sentences_per_chunk ≤ st.current_chunk.length then
    emitChunk cfg st ((i : Int) - st.current_chunk.length + 1) (i : Int)
  else st

/-- One iteration of the `for i, sentence in enumerate(sentences)` loop of
`_chunk_by_sentences`: maybe close by size, append the sentence, maybe
close by sentence count. -/
def chunkStep (cfg : TextProcessingConfig) (i : Nat) (s : String) (st : SentState) :
    SentState :=
  countClose cfg i (appendSentence s (sizeClose cfg i s st))

/-- The enumerated sentence loop of `_chunk_by_sentences`. -/
def sentLoop (cfg : TextProcessingConfig) : List String → Nat → SentState → SentState
  | [], _, st => st
  | s :: rest, i, st => sentLoop cfg rest (i + 1) (chunkStep cfg i s st)

/-- The trailing emission of `_chunk_by_sentences` (lines 337-340): a
nonempty final buffer is emitted as one more chunk, `n` being the total
sentence count. -/
def finalClose (n : Nat) (st : SentState) : List Chunk :=
  if st.current_chunk ≠ [] then
    st.chunks ++ [⟨joinSp st.current_chunk, st.chunks.length,
                   (n : Int) - st.current_chunk.length, (n : Int) - 1⟩]
  else st.chunks

/-- `TextChunker._chunk_by_sentences` (`enhanced_processor.py` lines
287-342), taking the already-tokenized sentence list (sentence
tokenization is done by the external spaCy/NLTK collaborator). -/
def chunk_by_sentences (cfg : TextProcessingConfig) (sentences : List String) :
    List Chunk :=
  finalClose sentences.length (sentLoop cfg sentences 0 ⟨[], [], 0⟩)

/-- `text[i-1] in '.!?'` -/
def isSentEnd (c : Char) : Bool := c = '.' || c = '!' || c = '?'

/-- The backward search `for i in range(end, overlap_start, -1)` of
`TextChunker._chunk_by_size`: starting at `i` with `fuel = end -
overlap_start` iterations remaining, return the first `i` whose preceding
character is sentence-terminal punctuation, else the original `end`. -/
def findCutGo (text : List Char) (origE : Nat) : Nat → Nat → Nat
  | _, 0 => origE
  | i, fuel + 1 =>
      if isSentEnd (text.getD (i - 1) ' ') then i
      else findCutGo text origE (i - 1) fuel

/-- The cut-point adjustment of `_chunk_by_size`: search backward from
`e` down to `lo + 1` for sentence-terminal punctuation. -/
def findCut (text : List Char) (lo e : Nat) : Nat := findCutGo text e e (e - lo)

/-- Python `str.strip()` on a character list. -/
def pyStrip (l : List Char) : List Char :=
  ((l.dropWhile Char.isWhitespace).reverse.dropWhile Char.isWhitespace).reverse

/-- Mutable state of the `while start < len(text)` loop of
`TextChunker._chunk_by_size` (`enhanced_processor.py` lines 344-368). -/
structure SizeState where
  start : Nat
  chunks : List Chunk
deriving DecidableEq, Repr

/-- The window end of one `_chunk_by_size` iteration: `end = start +
max_chunk_size`, moved back to sentence-terminal punctuation inside the
overlap window when the window does not already reach the end of the
text. -/
def sizeWindowEnd (cfg : TextProcessingConfig) (text : List Char) (start : Nat) : Nat :=
  if start + cfg.max_chunk_size < text.length then
    findCut text (Nat.max (start + cfg.max_chunk_size - cfg.overlap_size) start)
      (start + cfg.max_chunk_size)
  else start + cfg.max_chunk_size

/-- One iteration of the `_chunk_by_size` loop: compute the window end,
emit the stripped window if nonempty (with `chunk_index = len(chunks)` and
the character span as metadata), and advance `start` to `end -
overlap_size` (or `end` when `overlap_size = 0`).  The text is a character
list, matching Python string indexing. -/
def sizeStep (cfg : TextProcessingConfig) (text : List Char) (st : SizeState) : SizeState :=
  ⟨if 0 < cfg.overlap_size then sizeWindowEnd cfg text st.start - cfg.overlap_size
    else sizeWindowEnd cfg text st.start,
   if pyStrip ((text.drop st.start).take (sizeWindowEnd cfg text st.start - st.start)) ≠ [] then
     st.chunks ++
       [⟨String.mk (pyStrip ((text.drop st.start).take (sizeWindowEnd cfg text st.start - st.start))),
         st.chunks.length, (st.start : Int), (sizeWindowEnd cfg text st.start : Int)⟩]
   else st.chunks⟩

/-- The `while start < len(text)` loop of `_chunk_by_size`, with explicit
fuel.  `none` means the fuel ran out with the loop guard still true — the
source would still be looping at that point. -/
def chunkBySizeGo (cfg : TextProcessingConfig) (text : List Char) :
    Nat → SizeState → Option (List Chunk)
  | 0, st => if st.start < text.length then none else some st.chunks
  | fuel + 1, st =>
      if st.start < text.length then chunkBySizeGo cfg text fuel (sizeStep cfg text st)
      else some st.chunks

/-- `TextChunker._chunk_by_size` (`enhanced_processor.py` lines 344-368),
run with `length + 1` fuel — enough whenever every iteration advances
`start` by at least one character. -/
def chunk_by_size (cfg : TextProcessingConfig) (text : List Char) : Option (List Chunk) :=
  chunkBySizeGo cfg text (text.length + 1) ⟨0, []⟩

/-- The distinct rejection messages of `DataValidator.validate_text`
(`enhanced_processor.py` lines 217-239), abstracted to tags (the source
interpolates the offending numbers into the strings). -/
inductive ValidationReason where
  | emptyText
  | tooShort
  | tooLong
  | insufficientMeaningful
  | tooRepetitive
  | valid
deriving DecidableEq, Repr

/-- The validation bounds `validate_text` reads from its config
(`PreprocessingConfig.min_text_length` / `max_text_length`). -/
structure ValidationConfig where
  min_text_length : Nat
  max_text_length : Nat
deriving DecidableEq, Repr

/-- `[w for w in words if len(w) > 2 and w.isalpha()]` — the "meaningful
words" of a token list. -/
def meaningfulWords (tokens : List String) : List String :=
  tokens.filter (fun w => decide (2 < w.length) && w.toList.all Char.isAlpha)

/-- `DataValidator.validate_text` (`enhanced_processor.py` lines 217-239).
Word tokenization (`nltk.word_tokenize`) is an external collaborator and is
passed in as a function.  The repetition test `len(set(m))/len(m) < 0.3`
is expressed exactly over the rationals as `10 * distinct < 3 * total`. -/
def validate_text (cfg : ValidationConfig) (tokenize : String → List String)
    (text : String) : Bool × ValidationReason :=
  if text = "" then (false, .emptyText)
  else if text.length < cfg.min_text_length then (false, .tooShort)
  else if cfg.max_text_length < text.length then (false, .tooLong)
  else if (meaningfulWords (tokenize text)).length < 5 then
    (false, .insufficientMeaningful)
  else if 10 * (meaningfulWords (tokenize text)).dedup.length
      < 3 * (meaningfulWords (tokenize text)).length then
    (false, .tooRepetitive)
  else (true, .valid)

/-- Scan splitting a character list on spaces, dropping empty words. -/
def splitSpacesGo : List Char → List Char → List String
  | [], acc => if acc = [] then [] else [String.mk acc.reverse]
  | c :: rest, acc =>
      if c = ' ' then
        if acc = [] then splitSpacesGo rest []
        else String.mk acc.reverse :: splitSpacesGo rest []
      else splitSpacesGo rest (c :: acc)

/-- A plain whitespace tokenizer, used to instantiate the external
tokenizer parameter on concrete inputs. -/
def simpleTokenize (s : String) : List String := splitSpacesGo s.data []

/-- Python truthiness of the `manual_config: str | None` parameter:
`None` and the empty string are falsy. -/
def manualTruthy : Option String → Bool
  | none => false
  | some s => s ≠ ""

/-- The `config_mapping` dict literal of
`EnhancedDataProcessorWithCleanup.get_smart_config_for_content_type`
(`enhanced_processor_with_cleanup.py` lines 149-153). -/
def config_mapping : List (String × String) :=
  [("transcript", "video_transcript"),
   ("ocr", "presentation_text"),
   ("manual", "general_brewing")]

/-- `config_mapping.get(content_type, 'general_brewing')`. -/
def lookupMapping (content_type : String) : Option String :=
  (config_mapping.find? (fun kv => kv.1 = content_type)).map Prod.snd

/-- `EnhancedDataProcessorWithCleanup.get_smart_config_for_content_type`
(`enhanced_processor_with_cleanup.py` lines 143-155): a truthy manual
override wins, otherwise the static content-type map with default
`'general_brewing'`. -/
def get_smart_config_for_content_type (content_type : String)
    (manual_config : Option String) : String :=
  if manualTruthy manual_config then manual_config.getD ""
  else (lookupMapping content_type).getD "general_brewing"

/-- A point of the Qdrant collection, restricted to the parts of the
payload that the reconciliation logic reads or writes:
the caller-assigned id, `payload['source_file']`, `payload['config_used']`,
`payload['chunk_index']` and the chunk text. -/
structure StoredPoint where
  id : Nat
  source_file : String
  config_used : String
  chunk_index : Nat
  text : String
deriving DecidableEq, Repr

/-- One configured data directory together with its content type (the
`zip(data_dirs, content_types)` of `process_with_cleanup`), its
`os.path.exists` status and its `os.listdir` result. -/
structure DirEntry where
  path : String
  ctype : String
  present : Bool
  files : List String
deriving DecidableEq, Repr

/-- Scan for `os.path.basename`: keep the characters after the last
slash. -/
def basenameGo : List Char → List Char → List Char
  | [], acc => acc.reverse
  | c :: rest, acc =>
      if c = '/' then basenameGo rest [] else basenameGo rest (c :: acc)

/-- `os.path.basename`: the final path component. -/
def basename (p : String) : String := String.mk (basenameGo p.data [])

/-- `os.path.join(data_dir, filename)` for the relative paths this
pipeline uses. -/
def joinPath (d f : String) : String :=
  if d = "" then f
  else if d.data.getLast? = some '/' then d ++ f
  else d ++ "/" ++ f

/-- Whether the character list `l` ends with the character list `s`. -/
def endsWithChars (l s : List Char) : Bool :=
  decide ((l.reverse.take s.length).reverse = s)

/-- `filename.lower().endswith('.txt')`. -/
def isTxt (name : String) : Bool :=
  endsWithChars (name.data.map Char.toLower) ".txt".data

/-- The `.txt` entries of a directory listing. -/
def filesOf (d : DirEntry) : List String := d.files.filter isTxt

/-- `EnhancedDataProcessorWithCleanup.get_current_files`
(`enhanced_processor_with_cleanup.py` lines 81-94): the joined paths of
all `.txt` files of the existing data directories. -/
def get_current_files (dirs : List DirEntry) : List String :=
  (dirs.filter DirEntry.present).flatMap (fun d => (filesOf d).map (joinPath d.path))

/-- The keys of `get_existing_file_chunks` (lines 33-56): the distinct
nonempty `source_file` payload values of the scrolled points. -/
def storedFiles (store : List StoredPoint) : List String :=
  ((store.map StoredPoint.source_file).filter (fun f => decide (f ≠ ""))).dedup

/-- The value `get_existing_file_chunks()[f]`: the ids of all points whose
payload `source_file` equals `f`. -/
def fileChunkIds (store : List StoredPoint) (f : String) : List Nat :=
  (store.filter (fun p => decide (p.source_file = f))).map StoredPoint.id

/-- Outcome of one `cleanup_orphaned_chunks` call: the orphaned source
identities, the deleted point ids, and the store after the deletions. -/
structure CleanupResult where
  orphaned : List String
  deletedIds : List Nat
  newStore : List StoredPoint
deriving DecidableEq, Repr

/-- `EnhancedDataProcessorWithCleanup.cleanup_orphaned_chunks`
(`enhanced_processor_with_cleanup.py` lines 96-141), with the store RPCs
modelled as succeeding: when the scrolled state has no nonempty
`source_file` the cleanup is skipped; otherwise every identity present in
the store but not among the current files is orphaned and all of its point
ids are deleted in bulk. -/
def cleanup_orphaned_chunks (store : List StoredPoint) (dirs : List DirEntry) :
    CleanupResult :=
  if storedFiles store = [] then ⟨[], [], store⟩
  else
    let current := get_current_files dirs
    let orphaned := (storedFiles store).filter (fun f => decide (f ∉ current))
    let deleted := orphaned.flatMap (fileChunkIds store)
    ⟨orphaned, deleted, store.filter (fun p => decide (p.id ∉ deleted))⟩

/-- `get_processed_files_configs` (lines 58-79) restricted to one lookup:
the dict maps each nonempty `source_file` with nonempty `config_used` to
the `config_used` of its last scrolled point, so the lookup of `f` returns
the `config_used` of the last qualifying point with `source_file = f`. -/
def get_processed_files_configs (store : List StoredPoint) (f : String) :
    Option String :=
  ((store.filter (fun p => decide (p.source_file ≠ "") && decide (p.config_used ≠ "") &&
      decide (p.source_file = f))).getLast?).map StoredPoint.config_used

/-- `EnhancedDataProcessorWithCleanup.should_process_file` (lines 157-172):
skip exactly when the basename is already recorded with the same config
name. -/
def should_process_file (store : List StoredPoint) (file_path config_name : String) :
    Bool :=
  match get_processed_files_configs store (basename file_path) with
  | some existing => existing != config_name
  | none => true

/-- One chunk as accumulated into `all_chunks` by `process_with_cleanup`
(lines 204-217): the chunk text plus the metadata fields later read by the
upload: `source_file` (stamped by `MetadataEnricher.enrich_metadata` as the
basename of the processed file), `config_used` (stamped by the dedup loop)
and `chunk_index` (stamped by the chunker). -/
structure ChunkUpload where
  text : String
  chunk_index : Nat
  source_file : String
  config_used : String
deriving DecidableEq, Repr

/-- The `all_chunks` accumulation of `process_with_cleanup` (lines
191-226): for every existing directory, select the config for its content
type, and for every `.txt` file that `should_process_file` accepts, take
the chunks `EnhancedDataProcessor.process_text_file` produces for it.
Per-file chunk production (read, validate, preprocess, chunk, filter) is
deterministic given the external tokenizers and models, and is passed in as
`pf : path → content_type → list of (text, chunk_index)`.  The store is
constant during this phase: deletions happened in step 1 and the upsert
happens in step 3. -/
def runChunks (pf : String → String → List (String × Nat))
    (store : List StoredPoint) (dirs : List DirEntry) (manual : Option String) :
    List ChunkUpload :=
  dirs.flatMap (fun d =>
    if d.present then
      let config_name := get_smart_config_for_content_type d.ctype manual
      (filesOf d).flatMap (fun name =>
        let path := joinPath d.path name
        if should_process_file store path config_name then
          (pf path d.ctype).map (fun tc =>
            ⟨tc.1, tc.2, basename path, config_name⟩)
        else [])
    else [])

/-- The files `process_with_cleanup` counts as skipped. -/
def skippedFiles (store : List StoredPoint) (dirs : List DirEntry)
    (manual : Option String) : List String :=
  dirs.flatMap (fun d =>
    if d.present then
      let config_name := get_smart_config_for_content_type d.ctype manual
      (filesOf d).filterMap (fun name =>
        let path := joinPath d.path name
        if should_process_file store path config_name then none else some path)
    else [])

/-- The files `process_with_cleanup` processes. -/
def processedFiles (store : List StoredPoint) (dirs : List DirEntry)
    (manual : Option String) : List String :=
  dirs.flatMap (fun d =>
    if d.present then
      let config_name := get_smart_config_for_content_type d.ctype manual
      (filesOf d).filterMap (fun name =>
        let path := joinPath d.path name
        if should_process_file store path config_name then some path else none)
    else [])

/-- `for idx, (text, metadata) in enumerate(chunks)` of
`_upload_chunks_to_qdrant` (lines 253-265): the point id is the position
of the chunk in the batch. -/
def mkPointsFrom : Nat → List ChunkUpload → List StoredPoint
  | _, [] => []
  | i, c :: rest =>
      ⟨i, c.source_file, c.config_used, c.chunk_index, c.text⟩ :: mkPointsFrom (i + 1) rest

/-- The points `_upload_chunks_to_qdrant` builds from a chunk batch. -/
def mkPoints (l : List ChunkUpload) : List StoredPoint := mkPointsFrom 0 l

/-- Qdrant upsert of one point: replace the point with the same id if one
exists, else append. -/
def upsertPoint (store : List StoredPoint) (p : StoredPoint) : List StoredPoint :=
  if store.any (fun q => q.id == p.id) then
    store.map (fun q => if q.id = p.id then p else q)
  else store ++ [p]

/-- Qdrant upsert of a point batch. -/
def upsertPoints (store : List StoredPoint) (ps : List StoredPoint) : List StoredPoint :=
  ps.foldl upsertPoint store

/-- Everything one `process_with_cleanup` run does to the store, plus the
classification of the files it saw. -/
structure ProcessResult where
  orphaned : List String
  deletedIds : List Nat
  skipped : List String
  processed : List String
  upserts : List StoredPoint
  finalStore : List StoredPoint
deriving DecidableEq, Repr

/-- `EnhancedDataProcessorWithCleanup.process_with_cleanup`
(`enhanced_processor_with_cleanup.py` lines 174-240): step 1 cleanup of
orphaned chunks, step 2 selective chunk production over the surviving
store, step 3 upload of the batch with positional ids. -/
def process_with_cleanup (pf : String → String → List (String × Nat))
    (store0 : List StoredPoint) (dirs : List DirEntry) (manual : Option String) :
    ProcessResult :=
  let c := cleanup_orphaned_chunks store0 dirs
  let pts := mkPoints (runChunks pf c.newStore dirs manual)
  { orphaned := c.orphaned
    deletedIds := c.deletedIds
    skipped := skippedFiles c.newStore dirs manual
    processed := processedFiles c.newStore dirs manual
    upserts := pts
    finalStore := upsertPoints c.newStore pts }

/-- The store ids assigned to a given (source identity, chunk_index) pair
within an upserted batch. -/
def pairIds (ps : List StoredPoint) (s : String) (j : Nat) : List Nat :=
  (ps.filter (fun p => decide (p.source_file = s) && decide (p.chunk_index = j))).map
    StoredPoint.id

/-- A one-directory corpus used as a concrete input: `data/transcripts`
containing the single file `a.txt`. -/
def demoDirs : List DirEntry :=
  [⟨"data/transcripts", "transcript", true, ["a.txt"]⟩]

/-- A concrete per-file chunk producer for the demo corpus: `a.txt` yields
one validated chunk. -/
def demoPf : String → String → List (String × Nat) :=
  fun p _ => if p = "data/transcripts/a.txt" then [("malt and hops", 0)] else []

/-! ## Helper lemmas -/

theorem totalLen_cons (s : String) (l : List String) :
    totalLen (s :: l) = s.length + totalLen l := by
  simp [totalLen]

theorem overlapLoop_totalLen (k : Nat) :
    ∀ (l : List String) (c : Nat) (acc : List String),
      totalLen acc = c → c ≤ k → totalLen (overlapLoop k l c acc) ≤ k := by
  intro l
  induction l with
  | nil => intro c acc h hk; simpa [overlapLoop, h] using hk
  | cons s rest ih =>
      intro c acc h hk
      unfold overlapLoop
      split
      · exact ih (c + s.length) (s :: acc)
          (by simp [totalLen_cons, h]; omega) (by assumption)
      · simpa [h] using hk

theorem overlapLoop_suffix (k : Nat) :
    ∀ (l : List String) (c : Nat) (acc : List String),
      ∃ t r, overlapLoop k l c acc = t ++ acc ∧ l = t.reverse ++ r := by
  intro l
  induction l with
  | nil => intro c acc; exact ⟨[], [], by simp [overlapLoop], by simp⟩
  | cons s rest ih =>
      intro c acc
      unfold overlapLoop
      split
      · obtain ⟨t, r, h1, h2⟩ := ih (c + s.length) (s :: acc)
        refine ⟨t ++ [s], r, ?_, ?_⟩
        · simp [h1]
        · simp [h2]
      · exact ⟨[], s :: rest, by simp, by simp⟩

theorem get_overlap_sentences_suffix (sentences : List String) (k : Nat) :
    ∃ pre, sentences = pre ++ get_overlap_sentences sentences k := by
  obtain ⟨t, r, h1, h2⟩ := overlapLoop_suffix k sentences.reverse 0 []
  refine ⟨r.reverse, ?_⟩
  have ht : get_overlap_sentences sentences k = t := by
    simp [get_overlap_sentences, h1]
  rw [ht]
  have := congrArg List.reverse h2
  simpa using this

theorem get_overlap_sentences_totalLen (sentences : List String) (k : Nat) :
    totalLen (get_overlap_sentences sentences k) ≤ k :=
  overlapLoop_totalLen k sentences.reverse 0 [] (by simp [totalLen]) (Nat.zero_le k)

theorem mem_storedFiles (store : List StoredPoint) (f : String) :
    f ∈ storedFiles store ↔ f ≠ "" ∧ ∃ p ∈ store, p.source_file = f := by
  simp [storedFiles, List.mem_dedup, List.mem_filter, List.mem_map]
  tauto

theorem cleanup_subset (store : List StoredPoint) (dirs : List DirEntry) :
    ∀ p ∈ (cleanup_orphaned_chunks store dirs).newStore, p ∈ store := by
  unfold cleanup_orphaned_chunks
  split
  · exact fun p hp => hp
  · exact fun p hp => (List.mem_filter.mp hp).1

theorem cleanup_orphaned_iff (store : List StoredPoint) (dirs : List DirEntry)
    (f : String) :
    f ∈ (cleanup_orphaned_chunks store dirs).orphaned ↔
      f ∈ storedFiles store ∧ f ∉ get_current_files dirs := by
  unfold cleanup_orphaned_chunks
  split
  · rename_i h
    simp [h]
  · simp [List.mem_filter]

theorem cleanup_deletes_ids (store : List StoredPoint) (dirs : List DirEntry) :
    ∀ p ∈ store, p.source_file ≠ "" → p.source_file ∉ get_current_files dirs →
      p.id ∈ (cleanup_orphaned_chunks store dirs).deletedIds := by
  intro p hp hne hnc
  unfold cleanup_orphaned_chunks
  split
  · rename_i h
    have : p.source_file ∈ storedFiles store :=
      (mem_storedFiles store p.source_file).mpr ⟨hne, p, hp, rfl⟩
    rw [h] at this
    simp at this
  · refine List.mem_flatMap.mpr ⟨p.source_file, ?_, ?_⟩
    · refine List.mem_filter.mpr ⟨(mem_storedFiles store p.source_file).mpr
        ⟨hne, p, hp, rfl⟩, by simpa⟩
    · simp only [fileChunkIds, List.mem_map]
      exact ⟨p, List.mem_filter.mpr ⟨hp, by simp⟩, rfl⟩

theorem cleanup_removes_orphans (store : List StoredPoint) (dirs : List DirEntry) :
    ∀ p ∈ store, p.source_file ≠ "" → p.source_file ∉ get_current_files dirs →
      p ∉ (cleanup_orphaned_chunks store dirs).newStore := by
  intro p hp hne hnc hmem
  have hdel := cleanup_deletes_ids store dirs p hp hne hnc
  revert hdel hmem
  unfold cleanup_orphaned_chunks
  split
  · rename_i h
    have : p.source_file ∈ storedFiles store :=
      (mem_storedFiles store p.source_file).mpr ⟨hne, p, hp, rfl⟩
    rw [h] at this
    simp at this
  · intro hmem hdel
    have := (List.mem_filter.mp hmem).2
    simp only [decide_eq_true_eq] at this
    exact this hdel

theorem cleanup_keeps_current (store : List StoredPoint) (dirs : List DirEntry)
    (hids : (store.map StoredPoint.id).Nodup) :
    ∀ p ∈ store, p.source_file ∈ get_current_files dirs →
      p ∈ (cleanup_orphaned_chunks store dirs).newStore := by
  intro p hp hc
  unfold cleanup_orphaned_chunks
  split
  · exact hp
  · refine List.mem_filter.mpr ⟨hp, ?_⟩
    simp only [decide_eq_true_eq]
    intro hid
    obtain ⟨f, hf, hidf⟩ := List.mem_flatMap.mp hid
    simp only [fileChunkIds, List.mem_map] at hidf
    obtain ⟨q, hq, hqid⟩ := hidf
    have hqmem := (List.mem_filter.mp hq).1
    have hqf : q.source_file = f := by
      have := (List.mem_filter.mp hq).2; simpa using this
    have hpq : q = p := List.inj_on_of_nodup_map hids hqmem hp hqid
    have hfnc : f ∉ get_current_files dirs := by
      have := (List.mem_filter.mp hf).2; simpa using this
    rw [← hpq, hqf] at hc
    exact hfnc hc

theorem cleanup_wipes (store : List StoredPoint) (dirs : List DirEntry)
    (h : ∀ p ∈ store, p.source_file ≠ "" ∧ p.source_file ∉ get_current_files dirs) :
    (cleanup_orphaned_chunks store dirs).newStore = [] := by
  refine List.eq_nil_iff_forall_not_mem.mpr fun p hp => ?_
  have hps := cleanup_subset store dirs p hp
  exact cleanup_removes_orphans store dirs p hps (h p hps).1 (h p hps).2 hp

theorem mem_upsertPoint (s : List StoredPoint) (p r : StoredPoint)
    (h : r ∈ upsertPoint s p) : r ∈ s ∨ r = p := by
  unfold upsertPoint at h
  split at h
  · obtain ⟨q, hq, hqr⟩ := List.mem_map.mp h
    by_cases hid : q.id = p.id
    · right; rw [if_pos hid] at hqr; exact hqr.symm
    · left; rw [if_neg hid] at hqr; exact hqr ▸ hq
  · rcases List.mem_append.mp h with h' | h'
    · exact Or.inl h'
    · exact Or.inr (by simpa using h')

theorem mem_upsertPoints (ps : List StoredPoint) :
    ∀ (s : List StoredPoint) (r : StoredPoint),
      r ∈ upsertPoints s ps → r ∈ s ∨ r ∈ ps := by
  induction ps with
  | nil => intro s r h; exact Or.inl (by simpa [upsertPoints] using h)
  | cons p ps ih =>
      intro s r h
      have h' : r ∈ upsertPoints (upsertPoint s p) ps := by
        simpa [upsertPoints] using h
      rcases ih (upsertPoint s p) r h' with h'' | h''
      · rcases mem_upsertPoint s p r h'' with h3 | h3
        · exact Or.inl h3
        · exact Or.inr (by simp [h3])
      · exact Or.inr (by simp [h''])

theorem mem_mkPointsFrom :
    ∀ (l : List ChunkUpload) (i : Nat) (q : StoredPoint),
      q ∈ mkPointsFrom i l →
      ∃ c ∈ l, q.source_file = c.source_file ∧ q.config_used = c.config_used := by
  intro l
  induction l with
  | nil => intro i q h; simp [mkPointsFrom] at h
  | cons c rest ih =>
      intro i q h
      simp only [mkPointsFrom, List.mem_cons] at h
      rcases h with h | h
      · exact ⟨c, by simp, by simp [h], by simp [h]⟩
      · obtain ⟨c', hc', h1, h2⟩ := ih (i + 1) q h
        exact ⟨c', by simp [hc'], h1, h2⟩

theorem mem_runChunks (pf : String → String → List (String × Nat))
    (store : List StoredPoint) (dirs : List DirEntry) (manual : Option String)
    (u : ChunkUpload) (h : u ∈ runChunks pf store dirs manual) :
    ∃ d ∈ dirs, d.present = true ∧ ∃ name ∈ filesOf d,
      u.source_file = basename (joinPath d.path name) ∧
      u.config_used = get_smart_config_for_content_type d.ctype manual := by
  simp only [runChunks, List.mem_flatMap] at h
  obtain ⟨d, hd, hu⟩ := h
  by_cases hp : d.present
  · rw [if_pos hp] at hu
    simp only [List.mem_flatMap] at hu
    obtain ⟨name, hname, hu⟩ := hu
    by_cases hs : should_process_file store (joinPath d.path name)
        (get_smart_config_for_content_type d.ctype manual)
    · rw [if_pos hs] at hu
      obtain ⟨tc, _, htc⟩ := List.mem_map.mp hu
      exact ⟨d, hd, hp, name, hname, by rw [← htc], by rw [← htc]⟩
    · rw [if_neg hs] at hu
      simp at hu
  · rw [if_neg hp] at hu
    simp at hu

/-- The contiguity invariant for emitted chunk lists: the i-th chunk
carries `chunk_index` i. -/
def idxContiguous (cs : List Chunk) : Prop :=
  cs.map Chunk.chunk_index = List.range cs.length

theorem idxContiguous_append (cs : List Chunk) (c : Chunk)
    (h : idxContiguous cs) (hc : c.chunk_index = cs.length) :
    idxContiguous (cs ++ [c]) := by
  unfold idxContiguous at h ⊢
  simp [h, hc, List.range_succ]

theorem emitChunk_chunks (cfg : TextProcessingConfig) (st : SentState) (s e : Int) :
    (emitChunk cfg st s e).chunks =
      st.chunks ++ [⟨joinSp st.current_chunk, st.chunks.length, s, e⟩] := rfl

theorem idxContiguous_emitChunk (cfg : TextProcessingConfig) (st : SentState)
    (s e : Int) (h : idxContiguous st.chunks) :
    idxContiguous (emitChunk cfg st s e).chunks := by
  rw [emitChunk_chunks]
  exact idxContiguous_append st.chunks _ h rfl

theorem idxContiguous_sizeClose (cfg : TextProcessingConfig) (i : Nat) (s : String)
    (st : SentState) (h : idxContiguous st.chunks) :
    idxContiguous (sizeClose cfg i s st).chunks := by
  unfold sizeClose
  split
  · exact idxContiguous_emitChunk _ _ _ _ h
  · exact h

theorem idxContiguous_countClose (cfg : TextProcessingConfig) (i : Nat)
    (st : SentState) (h : idxContiguous st.chunks) :
    idxContiguous (countClose cfg i st).chunks := by
  unfold countClose
  split
  · exact idxContiguous_emitChunk _ _ _ _ h
  · exact h

theorem idxContiguous_chunkStep (cfg : TextProcessingConfig) (i : Nat) (s : String)
    (st : SentState) (h : idxContiguous st.chunks) :
    idxContiguous (chunkStep cfg i s st).chunks :=
  idxContiguous_countClose cfg i _
    (idxContiguous_sizeClose cfg i s st h)

theorem idxContiguous_sentLoop (cfg : TextProcessingConfig) :
    ∀ (sentences : List String) (i : Nat) (st : SentState),
      idxContiguous st.chunks → idxContiguous (sentLoop cfg sentences i st).chunks := by
  intro sentences
  induction sentences with
  | nil => intro i st h; simpa [sentLoop] using h
  | cons s rest ih =>
      intro i st h
      exact ih (i + 1) _ (idxContiguous_chunkStep cfg i s st h)

theorem idxContiguous_chunk_by_sentences (cfg : TextProcessingConfig)
    (sentences : List String) :
    idxContiguous (chunk_by_sentences cfg sentences) := by
  unfold chunk_by_sentences finalClose
  have h := idxContiguous_sentLoop cfg sentences 0 ⟨[], [], 0⟩
    (by simp [idxContiguous])
  split
  · exact idxContiguous_append _ _ h rfl
  · exact h

theorem idxContiguous_sizeStep (cfg : TextProcessingConfig) (text : List Char)
    (st : SizeState) (h : idxContiguous st.chunks) :
    idxContiguous (sizeStep cfg text st).chunks := by
  unfold sizeStep
  simp only []
  split
  · exact idxContiguous_append _ _ h rfl
  · exact h

theorem sizeStep_start_val (cfg : TextProcessingConfig) (text : List Char)
    (st : SizeState) :
    (sizeStep cfg text st).start =
      if 0 < cfg.overlap_size then sizeWindowEnd cfg text st.start - cfg.overlap_size
      else sizeWindowEnd cfg text st.start := rfl

theorem idxContiguous_chunkBySizeGo (cfg : TextProcessingConfig) (text : List Char) :
    ∀ (fuel : Nat) (st : SizeState) (cs : List Chunk),
      idxContiguous st.chunks → chunkBySizeGo cfg text fuel st = some cs →
      idxContiguous cs := by
  intro fuel
  induction fuel with
  | zero =>
      intro st cs h heq
      unfold chunkBySizeGo at heq
      split at heq
      · exact absurd heq (by simp)
      · cases heq; exact h
  | succ fuel ih =>
      intro st cs h heq
      unfold chunkBySizeGo at heq
      split at heq
      · exact ih _ cs (idxContiguous_sizeStep cfg text st h) heq
      · cases heq; exact h

theorem findCutGo_bound (text : List Char) (origE : Nat) :
    ∀ (fuel i : Nat),
      findCutGo text origE i fuel = origE ∨
        (i + 1 ≤ findCutGo text origE i fuel + fuel ∧ findCutGo text origE i fuel ≤ i) := by
  intro fuel
  induction fuel with
  | zero => intro i; left; rfl
  | succ fuel ih =>
      intro i
      unfold findCutGo
      split
      · right; omega
      · rcases ih (i - 1) with h | h
        · left; exact h
        · right; omega

theorem findCut_lb (text : List Char) (lo e0 : Nat) (h : lo < e0) :
    lo + 1 ≤ findCut text lo e0 ∧ findCut text lo e0 ≤ e0 := by
  unfold findCut
  rcases findCutGo_bound text e0 (e0 - lo) e0 with hf | hf
  · rw [hf]; omega
  · omega

theorem sizeWindowEnd_zero_overlap (cfg : TextProcessingConfig) (text : List Char)
    (start : Nat) (ho : cfg.overlap_size = 0) :
    sizeWindowEnd cfg text start = start + cfg.max_chunk_size := by
  unfold sizeWindowEnd
  split
  · have hm : Nat.max (start + cfg.max_chunk_size - cfg.overlap_size) start
        = start + cfg.max_chunk_size := by
      rw [ho, Nat.sub_zero]
      exact Nat.max_eq_left (Nat.le_add_right _ _)
    rw [hm]
    unfold findCut
    rw [Nat.sub_self]
    rfl
  · rfl

theorem sizeWindowEnd_bounds (cfg : TextProcessingConfig) (text : List Char)
    (start : Nat) (ho : 0 < cfg.overlap_size) (h2 : 1 ≤ cfg.max_chunk_size) :
    start + cfg.max_chunk_size - cfg.overlap_size + 1 ≤ sizeWindowEnd cfg text start
    ∧ sizeWindowEnd cfg text start ≤ start + cfg.max_chunk_size := by
  unfold sizeWindowEnd
  split
  · rcases Nat.le_total (start + cfg.max_chunk_size - cfg.overlap_size) start with hc | hc
    · have hm : Nat.max (start + cfg.max_chunk_size - cfg.overlap_size) start = start :=
        Nat.max_eq_right hc
      rw [hm]
      have hlt : start < start + cfg.max_chunk_size := by omega
      have := findCut_lb text _ _ hlt
      omega
    · have hm : Nat.max (start + cfg.max_chunk_size - cfg.overlap_size) start
          = start + cfg.max_chunk_size - cfg.overlap_size :=
        Nat.max_eq_left hc
      rw [hm]
      have hlt : start + cfg.max_chunk_size - cfg.overlap_size
          < start + cfg.max_chunk_size := by omega
      have := findCut_lb text _ _ hlt
      omega
  · omega

theorem sizeStep_advance (cfg : TextProcessingConfig) (text : List Char)
    (st : SizeState)
    (h1 : 2 * cfg.overlap_size ≤ cfg.max_chunk_size) (h2 : 1 ≤ cfg.max_chunk_size) :
    (0 < cfg.overlap_size →
      st.start + (cfg.max_chunk_size - 2 * cfg.overlap_size) + 1 ≤
        (sizeStep cfg text st).start)
    ∧ (cfg.overlap_size = 0 →
      (sizeStep cfg text st).start = st.start + cfg.max_chunk_size)
    ∧ st.start + 1 ≤ (sizeStep cfg text st).start := by
  rw [sizeStep_start_val]
  rcases Nat.eq_zero_or_pos cfg.overlap_size with ho | ho
  · rw [if_neg (by omega)]
    rw [sizeWindowEnd_zero_overlap cfg text st.start ho]
    exact ⟨by omega, fun _ => rfl, by omega⟩
  · rw [if_pos ho]
    have hb := sizeWindowEnd_bounds cfg text st.start ho h2
    exact ⟨fun _ => by omega, fun h0 => by omega, by omega⟩

theorem chunkBySizeGo_isSome (cfg : TextProcessingConfig) (text : List Char)
    (h1 : 2 * cfg.overlap_size ≤ cfg.max_chunk_size) (h2 : 1 ≤ cfg.max_chunk_size) :
    ∀ (fuel : Nat) (st : SizeState), text.length ≤ st.start + fuel →
      (chunkBySizeGo cfg text fuel st).isSome := by
  intro fuel
  induction fuel with
  | zero =>
      intro st hle
      unfold chunkBySizeGo
      rw [if_neg (by omega)]
      rfl
  | succ fuel ih =>
      intro st hle
      unfold chunkBySizeGo
      split
      · refine ih _ ?_
        have := (sizeStep_advance cfg text st h1 h2).2.2
        omega
      · rfl

/-! ## Claim theorems -/

/-- C1: Orphan exactness — after one reconciliation pass of
`cleanup_orphaned_chunks` over a scrolled store state with distinct point
ids, the set of source identities reported (and deleted) as orphans is
exactly I − D, where I is the set of indexed source identities
(`storedFiles`) and D the set of current on-disk files
(`get_current_files`); every record of an identity in I − D is removed,
and no record of an identity present both in the store and on disk is
removed. -/
theorem spec_C1_orphan_exactness (store : List StoredPoint) (dirs : List DirEntry)
    (hids : (store.map StoredPoint.id).Nodup) :
    (∀ f, f ∈ (cleanup_orphaned_chunks store dirs).orphaned ↔
        f ∈ storedFiles store ∧ f ∉ get_current_files dirs)
    ∧ (∀ p ∈ store, p.source_file ≠ "" → p.source_file ∉ get_current_files dirs →
        p ∉ (cleanup_orphaned_chunks store dirs).newStore)
    ∧ (∀ p ∈ store, p.source_file ∈ get_current_files dirs →
        p ∈ (cleanup_orphaned_chunks store dirs).newStore) :=
  ⟨fun f => cleanup_orphaned_iff store dirs f,
   cleanup_removes_orphans store dirs,
   cleanup_keeps_current store dirs hids⟩

/-- Witness for C1 at a concrete store and corpus: the indexed identity
`b.txt` is absent from disk and is reported as an orphan. -/
theorem spec_C1_orphan_exactness_witness :
    "b.txt" ∈ (cleanup_orphaned_chunks
      [⟨0, "a.txt", "video_transcript", 0, "t0"⟩,
       ⟨1, "b.txt", "video_transcript", 0, "t1"⟩] demoDirs).orphaned :=
  ((spec_C1_orphan_exactness
      [⟨0, "a.txt", "video_transcript", 0, "t0"⟩,
       ⟨1, "b.txt", "video_transcript", 0, "t1"⟩] demoDirs (by decide)).1
    "b.txt").mpr (by decide)

/-- C2: evaluation of two identical runs over an unchanged one-file
corpus.  The second run is not a no-op: the cleanup misclassifies the
surviving file as orphaned (payload `source_file` holds the basename
`a.txt` while `get_current_files` holds the full joined path
`data/transcripts/a.txt`, so their set difference is everything), deletes
its record, and then reprocesses and re-uploads the file instead of
skipping it — contradicting the claimed idempotence (zero deletions, zero
upserts, everything SKIPPED). -/
theorem spec_C2_second_run_not_idempotent :
    (process_with_cleanup demoPf [] demoDirs none).finalStore =
      [⟨0, "a.txt", "video_transcript", 0, "malt and hops"⟩]
    ∧ (process_with_cleanup demoPf
        (process_with_cleanup demoPf [] demoDirs none).finalStore demoDirs none).orphaned
        = ["a.txt"]
    ∧ (process_with_cleanup demoPf
        (process_with_cleanup demoPf [] demoDirs none).finalStore demoDirs none).deletedIds
        = [0]
    ∧ (process_with_cleanup demoPf
        (process_with_cleanup demoPf [] demoDirs none).finalStore demoDirs none).upserts
        = [⟨0, "a.txt", "video_transcript", 0, "malt and hops"⟩]
    ∧ (process_with_cleanup demoPf
        (process_with_cleanup demoPf [] demoDirs none).finalStore demoDirs none).skipped
        = [] := by decide

/-- C3: evaluation of the sentence chunker at a failing input.  Under the
profile `max_chunk_size = 10`, `min_chunk_size = 5`, `overlap_size = 0`,
the document with sentences "abcdefgh" and "xyz" (12 characters joined,
well above `min_chunk_size`) is split into two chunks whose second chunk
"xyz" is only 3 characters — below `min_chunk_size` — because
`_chunk_by_sentences` of `enhanced_processor.py` never consults
`min_chunk_size`.  This contradicts the claimed size-bound invariant. -/
theorem spec_C3_trailing_chunk_below_min :
    (chunk_by_sentences ⟨10, 5, 0, 100⟩ ["abcdefgh", "xyz"]).map Chunk.text
      = ["abcdefgh", "xyz"]
    ∧ ("xyz".length < 5 ∧ 5 ≤ (joinSp ["abcdefgh", "xyz"]).length) := by decide

/-- C4: whenever the sentence chunker closes a chunk with
`overlap_size > 0`, the buffer seeding the next chunk is
`_get_overlap_sentences` of the just-closed buffer; that seed is a
contiguous suffix of the closed buffer's sentence list (whole sentences,
never a split sentence) and the sum of its sentence lengths is at most
`overlap_size`. -/
theorem spec_C4_overlap_tail_bound (cfg : TextProcessingConfig) (st : SentState)
    (s e : Int) (h : 0 < cfg.overlap_size) :
    (emitChunk cfg st s e).current_chunk =
      get_overlap_sentences st.current_chunk cfg.overlap_size
    ∧ (∃ pre, st.current_chunk = pre ++ (emitChunk cfg st s e).current_chunk)
    ∧ totalLen (emitChunk cfg st s e).current_chunk ≤ cfg.overlap_size := by
  have hcc : (emitChunk cfg st s e).current_chunk =
      get_overlap_sentences st.current_chunk cfg.overlap_size := by
    simp [emitChunk, h]
  refine ⟨hcc, ?_, ?_⟩
  · rw [hcc]
    exact get_overlap_sentences_suffix _ _
  · rw [hcc]
    exact get_overlap_sentences_totalLen _ _

/-- Witness for C4 at a concrete closed buffer: with `overlap_size = 4`
the seed of the next buffer has total sentence length at most 4. -/
theorem spec_C4_overlap_tail_bound_witness :
    totalLen (emitChunk ⟨10, 5, 4, 10⟩ ⟨[], ["abc", "de"], 5⟩ 0 1).current_chunk ≤ 4 :=
  (spec_C4_overlap_tail_bound ⟨10, 5, 4, 10⟩ ⟨[], ["abc", "de"], 5⟩ 0 1 (by decide)).2.2

/-- C5: for every profile, every sentence list and every text, both
chunking strategies stamp contiguous `chunk_index` values starting at 0:
the i-th emitted chunk carries `chunk_index` i (for the size-based
strategy, for every run that terminates within its fuel).  The stamped
value is independent of the caller-supplied metadata template, which
`_create_chunk_metadata` always overwrites. -/
theorem spec_C5_chunk_index_contiguous (cfg : TextProcessingConfig)
    (sentences : List String) (text : List Char) :
    ((chunk_by_sentences cfg sentences).map Chunk.chunk_index =
      List.range (chunk_by_sentences cfg sentences).length)
    ∧ ∀ cs, chunk_by_size cfg text = some cs →
        cs.map Chunk.chunk_index = List.range cs.length := by
  constructor
  · exact idxContiguous_chunk_by_sentences cfg sentences
  · intro cs h
    exact idxContiguous_chunkBySizeGo cfg text _ _ cs (by simp [idxContiguous]) h

/-- Witness for C5 at a concrete size-based run: the four emitted chunks
carry indices 0, 1, 2, 3. -/
theorem spec_C5_chunk_index_contiguous_witness :
    ([⟨"ab. c", 0, 0, 5⟩, ⟨"cdef", 1, 3, 8⟩, ⟨"efgh", 2, 6, 11⟩,
      ⟨"h", 3, 9, 14⟩] : List Chunk).map Chunk.chunk_index = List.range 4 := by
  have := (spec_C5_chunk_index_contiguous ⟨5, 0, 2, 10⟩ [] "ab. cdefgh".data).2
    [⟨"ab. c", 0, 0, 5⟩, ⟨"cdef", 1, 3, 8⟩, ⟨"efgh", 2, 6, 11⟩, ⟨"h", 3, 9, 14⟩]
    (by decide)
  simpa using this

/-- C6 counterexample: whitespace-only (but nonempty) text is NOT rejected
with the "empty" reason as the claim states: under `min_text_length = 50`,
the three-space text is rejected as too short (`if not text` in the source
only catches the empty string; nonempty whitespace is truthy). -/
theorem spec_C6_whitespace_not_empty_reason :
    validate_text ⟨50, 10000⟩ simpleTokenize "   "
      = (false, ValidationReason.tooShort)
    ∧ ((false, ValidationReason.tooShort)
        ≠ (false, ValidationReason.emptyText)) := by decide

/-- C6 amended: `validate_text` evaluates its rules in a fixed order with
the first failure winning — empty (the empty string only; whitespace-only
text falls through to the later rules) → shorter than `min_text_length` →
longer than `max_text_length` → fewer than 5 meaningful words (alphabetic
tokens of length > 2) → distinct-to-total meaningful-word ratio below
3/10 → valid. -/
theorem spec_C6_validation_order (cfg : ValidationConfig)
    (tokenize : String → List String) (text : String) :
    (validate_text cfg tokenize text = (false, .emptyText) ↔ text = "")
    ∧ (validate_text cfg tokenize text = (false, .tooShort) ↔
        text ≠ "" ∧ text.length < cfg.min_text_length)
    ∧ (validate_text cfg tokenize text = (false, .tooLong) ↔
        text ≠ "" ∧ cfg.min_text_length ≤ text.length
        ∧ cfg.max_text_length < text.length)
    ∧ (validate_text cfg tokenize text = (false, .insufficientMeaningful) ↔
        text ≠ "" ∧ cfg.min_text_length ≤ text.length
        ∧ text.length ≤ cfg.max_text_length
        ∧ (meaningfulWords (tokenize text)).length < 5)
    ∧ (validate_text cfg tokenize text = (false, .tooRepetitive) ↔
        text ≠ "" ∧ cfg.min_text_length ≤ text.length
        ∧ text.length ≤ cfg.max_text_length
        ∧ 5 ≤ (meaningfulWords (tokenize text)).length
        ∧ 10 * (meaningfulWords (tokenize text)).dedup.length
            < 3 * (meaningfulWords (tokenize text)).length)
    ∧ (validate_text cfg tokenize text = (true, .valid) ↔
        text ≠ "" ∧ cfg.min_text_length ≤ text.length
        ∧ text.length ≤ cfg.max_text_length
        ∧ 5 ≤ (meaningfulWords (tokenize text)).length
        ∧ 3 * (meaningfulWords (tokenize text)).length
            ≤ 10 * (meaningfulWords (tokenize text)).dedup.length) := by
  unfold validate_text
  split_ifs with hA hB hC hD hE <;> simp_all

/-- C7 counterexample: a supplied-but-empty manual override does not win:
`if manual_config:` treats the empty string as absent, so the mapped
profile name is returned instead of the override. -/
theorem spec_C7_empty_override_ignored :
    get_smart_config_for_content_type "transcript" (some "") = "video_transcript"
    ∧ ("video_transcript" : String) ≠ "" := by decide

/-- C7 amended: profile selection is pure and total (a total Lean
function); a NON-EMPTY manual override wins unconditionally, an
empty-string override is treated as absent, the three mapped content
types return their mapped profile names, and any other content type falls
back to the documented default 'general_brewing'. -/
theorem spec_C7_selection_total (ct : String) :
    (∀ s, s ≠ "" → get_smart_config_for_content_type ct (some s) = s)
    ∧ get_smart_config_for_content_type ct (some "")
        = get_smart_config_for_content_type ct none
    ∧ get_smart_config_for_content_type "transcript" none = "video_transcript"
    ∧ get_smart_config_for_content_type "ocr" none = "presentation_text"
    ∧ get_smart_config_for_content_type "manual" none = "general_brewing"
    ∧ (ct ≠ "transcript" → ct ≠ "ocr" → ct ≠ "manual" →
        get_smart_config_for_content_type ct none = "general_brewing") := by
  refine ⟨?_, ?_, by decide, by decide, by decide, ?_⟩
  · intro s hs
    simp [get_smart_config_for_content_type, manualTruthy, hs]
  · simp [get_smart_config_for_content_type, manualTruthy]
  · intro h1 h2 h3
    have d1 : ¬ ("transcript" = ct) := fun hh => h1 hh.symm
    have d2 : ¬ ("ocr" = ct) := fun hh => h2 hh.symm
    have d3 : ¬ ("manual" = ct) := fun hh => h3 hh.symm
    simp [get_smart_config_for_content_type, manualTruthy, lookupMapping,
      config_mapping, List.find?, d1, d2, d3]

/-- Witness for C7 at a concrete content type and override. -/
theorem spec_C7_selection_total_witness :
    get_smart_config_for_content_type "recipe" (some "fast_processing")
        = "fast_processing"
    ∧ get_smart_config_for_content_type "recipe" none = "general_brewing" :=
  ⟨(spec_C7_selection_total "recipe").1 "fast_processing" (by decide),
   (spec_C7_selection_total "recipe").2.2.2.2.2 (by decide) (by decide) (by decide)⟩

/-- C8: config-change reprocessing.  When a file's prior records sit in
the store under source identity `fname` and (old) profile `P`, and the
current selection for every scanned file carrying that identity is a
profile other than `P`, one `process_with_cleanup` run deletes every prior
record id of that identity in its cleanup step — which runs before the
upload step by construction — and after the run no record with that
identity carries profile `P`: the old records are gone even though the
file's bytes are unchanged. -/
theorem spec_C8_reprocess_removes_old_profile
    (pf : String → String → List (String × Nat)) (store0 : List StoredPoint)
    (dirs : List DirEntry) (manual : Option String) (fname P : String)
    (hne : fname ≠ "")
    (hdisk : fname ∉ get_current_files dirs)
    (hsel : ∀ d ∈ dirs, d.present = true → ∀ name ∈ filesOf d,
        basename (joinPath d.path name) = fname →
        get_smart_config_for_content_type d.ctype manual ≠ P) :
    (∀ p ∈ store0, p.source_file = fname →
        p.id ∈ (process_with_cleanup pf store0 dirs manual).deletedIds)
    ∧ (∀ p ∈ (process_with_cleanup pf store0 dirs manual).finalStore,
        p.source_file = fname → p.config_used ≠ P) := by
  constructor
  · intro p hp hsf
    have hd : p.id ∈ (cleanup_orphaned_chunks store0 dirs).deletedIds :=
      cleanup_deletes_ids store0 dirs p hp (by rw [hsf]; exact hne)
        (by rw [hsf]; exact hdisk)
    simpa [process_with_cleanup] using hd
  · intro p hp hsf
    have hmem : p ∈ (cleanup_orphaned_chunks store0 dirs).newStore ∨
        p ∈ mkPoints (runChunks pf (cleanup_orphaned_chunks store0 dirs).newStore
              dirs manual) :=
      mem_upsertPoints _ _ p (by simpa [process_with_cleanup] using hp)
    rcases hmem with hm | hm
    · exfalso
      have hst := cleanup_subset store0 dirs p hm
      exact cleanup_removes_orphans store0 dirs p hst (by rw [hsf]; exact hne)
        (by rw [hsf]; exact hdisk) hm
    · obtain ⟨c, hc, hcsf, hccu⟩ := mem_mkPointsFrom _ 0 p hm
      obtain ⟨d, hd, hpres, name, hnm, husf, hucu⟩ :=
        mem_runChunks pf _ dirs manual c hc
      intro hP
      exact hsel d hd hpres name hnm ((husf.symm.trans hcsf.symm).trans hsf)
        ((hucu.symm.trans hccu.symm).trans hP)

/-- Witness for C8: a record indexed under `presentation_text` for `a.txt`
does not survive a run in which `a.txt` is selected with
`video_transcript`. -/
theorem spec_C8_reprocess_removes_old_profile_witness :
    (⟨0, "a.txt", "presentation_text", 0, "old"⟩ : StoredPoint) ∉
      (process_with_cleanup demoPf
        [⟨0, "a.txt", "presentation_text", 0, "old"⟩] demoDirs none).finalStore := by
  intro hmem
  exact (spec_C8_reprocess_removes_old_profile demoPf
      [⟨0, "a.txt", "presentation_text", 0, "old"⟩] demoDirs none
      "a.txt" "presentation_text" (by decide) (by decide) (by decide)).2
    _ hmem rfl rfl

/-- C9: point-id stability — two runs over the same corpus (same
directories, content types, manual override and per-file chunk
production) build identical upsert batches, so every (source identity,
chunk_index) pair receives the same caller-assigned id on both runs,
whatever pipeline-produced store each run starts from (records whose
identity is a nonempty basename, never equal to a current full path). -/
theorem spec_C9_stable_ids_same_corpus
    (pf : String → String → List (String × Nat)) (dirs : List DirEntry)
    (manual : Option String) (S1 S2 : List StoredPoint)
    (h1 : ∀ p ∈ S1, p.source_file ≠ "" ∧ p.source_file ∉ get_current_files dirs)
    (h2 : ∀ p ∈ S2, p.source_file ≠ "" ∧ p.source_file ∉ get_current_files dirs) :
    (process_with_cleanup pf S1 dirs manual).upserts
      = (process_with_cleanup pf S2 dirs manual).upserts
    ∧ ∀ s j, pairIds (process_with_cleanup pf S1 dirs manual).upserts s j
        = pairIds (process_with_cleanup pf S2 dirs manual).upserts s j := by
  have e1 := cleanup_wipes S1 dirs h1
  have e2 := cleanup_wipes S2 dirs h2
  have he : (process_with_cleanup pf S1 dirs manual).upserts
      = (process_with_cleanup pf S2 dirs manual).upserts := by
    simp only [process_with_cleanup]
    rw [e1, e2]
  exact ⟨he, fun s j => by rw [he]⟩

/-- Witness for C9: a run from the empty store and a run from a store
holding one stale record build the same upsert batch. -/
theorem spec_C9_stable_ids_same_corpus_witness :
    (process_with_cleanup demoPf [] demoDirs none).upserts
      = (process_with_cleanup demoPf
          [⟨7, "old.txt", "video_transcript", 3, "stale"⟩] demoDirs none).upserts :=
  (spec_C9_stable_ids_same_corpus demoPf demoDirs none []
    [⟨7, "old.txt", "video_transcript", 3, "stale"⟩] (by decide) (by decide)).1

/-- C10 counterexample: the claimed precondition `max_chunk_size ≥
2 * overlap_size` admits `max_chunk_size = overlap_size = 0`, where one
iteration of the size-based loop leaves the state unchanged while the
loop guard still holds: the window advances by 0, not by the claimed
`max − 2·overlap + 1 = 1`, and the loop never terminates (with fuel
`len + 1` the run is still looping). -/
theorem spec_C10_zero_advance :
    2 * (0 : Nat) ≤ 0
    ∧ sizeStep ⟨0, 0, 0, 10⟩ ['a'] ⟨0, []⟩ = ⟨0, []⟩
    ∧ chunk_by_size ⟨0, 0, 0, 10⟩ ['a'] = none := by decide

/-- C10 amended: under the strengthened precondition `max_chunk_size ≥
2 * overlap_size` AND `max_chunk_size ≥ 1`, every iteration of the
size-based loop advances `start` by at least `max_chunk_size −
2 * overlap_size + 1` characters when `overlap_size > 0` and by exactly
`max_chunk_size` characters when `overlap_size = 0` — at least 1 in
either case — so the loop terminates and the chunk list is finite. -/
theorem spec_C10_termination (cfg : TextProcessingConfig) (text : List Char)
    (h1 : 2 * cfg.overlap_size ≤ cfg.max_chunk_size)
    (h2 : 1 ≤ cfg.max_chunk_size) :
    (∀ st : SizeState,
      (0 < cfg.overlap_size →
        st.start + (cfg.max_chunk_size - 2 * cfg.overlap_size) + 1 ≤
          (sizeStep cfg text st).start)
      ∧ (cfg.overlap_size = 0 →
        (sizeStep cfg text st).start = st.start + cfg.max_chunk_size)
      ∧ st.start + 1 ≤ (sizeStep cfg text st).start)
    ∧ (chunk_by_size cfg text).isSome := by
  refine ⟨fun st => sizeStep_advance cfg text st h1 h2, ?_⟩
  unfold chunk_by_size
  exact chunkBySizeGo_isSome cfg text h1 h2 _ _ (by omega)

/-- Witness for C10 at a concrete profile and text: the size-based
chunker terminates. -/
theorem spec_C10_termination_witness :
    (chunk_by_size ⟨5, 0, 2, 10⟩ "ab. cdefgh".data).isSome :=
  (spec_C10_termination ⟨5, 0, 2, 10⟩ "ab. cdefgh".data (by decide) (by decide)).2

end BrewMaster
